import Mathlib

/-!
# l4proxy: the connection-pairing engine and the agent process loop

A shallow embedding of `src/handler/client.go` (type `Client`: the two
listeners, the registry `connPairs`, the serial control loop `run`) and of the
event loop of the `client` command in `src/main.go`.

Go pointers to `PairedConn` are indices into a heap of session objects; the
map `Pairs` is an association list from keys (byte strings) to such pointers.
One iteration of the `select` loop of `run` is one event of `Client.step`;
the tasks that run beside it (accept loops, relay tasks, the caller of
`Close`) contribute their own events, interleaved atomically. A send on
`NewPubConnNotifyCH` is taken to be received; a connection handed to `run` is
one that an accept loop delivered.

Integers are naturals; the token counter wraps at `Decls.tokenMod`.
-/

namespace L4Proxy

/-- A network connection, identified by a number. -/
abbrev Conn := Nat

/-- A Go string used as a map key: its bytes. -/
abbrev Key := List Nat

/-- Modelled from the spec: the declarations of package `handler` that
`client.go` uses and that are not among the sources. `Token` is "an unsigned
integer counter" of some machine width (`tokenMod` is the number of its
values), `Token.Len()` is the width `W` of its serialized form,
`Token.String()` that form, and `PairedConn.Copy` "registers its relay
tasks against a supplied completion tracker" (`copyTasks` of them). -/
structure Decls where
  tokenMod : Nat
  tokenLen : Nat → Nat
  tokenString : Nat → Key
  copyTasks : Nat

/-- The struct `PairedConn` as `client.go` uses it: `SRC` (near side), `DEST`
(far side, nil until matched) and `OnClose`. The only closure ever stored in
`OnClose` is `func() { delete(c.connPairs, string(buf)) }`, represented by
the captured key. `closed`, `tasks` (relay tasks still running) and `copies`
(calls of `Copy`) are the state that `Close` and `Copy` keep. -/
structure PairedConn where
  SRC : Conn
  DEST : Option Conn
  OnClose : Option Key
  closed : Bool
  tasks : Nat
  copies : Nat
deriving DecidableEq, Repr

/-- The map type `Pairs` (string to `*PairedConn`). -/
abbrev Pairs := List (Key × Nat)

/-- Map read `m[k]`; `none` is the nil pointer Go returns for an absent key. -/
def Pairs.get : Pairs → Key → Option Nat
  | [], _ => none
  | (k', p) :: rest, k => if k' = k then some p else Pairs.get rest k

/-- The builtin `delete(m, k)`. -/
def Pairs.delete (m : Pairs) (k : Key) : Pairs :=
  m.filter (fun e => decide (e.1 ≠ k))

/-- Map write `m[k] = p`. -/
def Pairs.store (m : Pairs) (k : Key) (p : Nat) : Pairs :=
  (k, p) :: Pairs.delete m k

/-- Where the goroutine of `run` stands. A Go panic ends the whole process. -/
inductive RunStatus where
  | notStarted
  | running
  | returned
  | panicked
deriving DecidableEq, Repr

/-- The struct `Client`, with the local variable `token` of `run`, and the
observable effects: the tokens sent on `NewPubConnNotifyCH`, the sessions on
which `Close` was called, the connections that were closed. `acceptLoops`
counts the accept goroutines of `listenAndAccept` still running. -/
structure Client where
  connPairs : Pairs
  heap : List PairedConn
  token : Nat
  notified : List Nat
  wg : Int
  acceptLoops : Nat
  doneClosed : Bool
  status : RunStatus
  closeCalls : List Nat
  closedConns : List Conn
deriving DecidableEq, Repr

/-- One step of the system around a `Client`. -/
inductive Event where
  /-- The `select` of `run` takes `case <-c.done`; `order` is the order in
  which the `range` loop visits the entries of the registry (Go leaves it
  unspecified). -/
  | done (order : List (Key × Nat))
  /-- The `select` of `run` takes `case conn := <-c.pubConnCH`. -/
  | pubConn (conn : Conn)
  /-- The `select` of `run` takes `case conn := <-c.intConnCH`; `reads` are
  the chunks that successive `Read` calls on `conn` return (none left: the
  read fails). -/
  | intConn (conn : Conn) (reads : List (List Nat))
  /-- A relay task of session `p` ends: it closes the session and is done. -/
  | relayExit (p : Nat)
  /-- An accept loop sees its listener closed and returns. -/
  | acceptExit
  /-- `Accept` fails with another error in an accept loop: `panic(err)`. -/
  | acceptFail
  /-- `Client.Close` executes `close(c.done)`. -/
  | closeDone
deriving DecidableEq, Repr

/-- `listenAndAccept`: when `net.Listen` succeeds (`ok`), one accept goroutine
is registered with `c.wg.Add(1)`. The second component is `err != nil`. -/
def listenAndAccept (ok : Bool) (c : Client) : Client × Bool :=
  if ok then ({ c with wg := c.wg + 1, acceptLoops := c.acceptLoops + 1 }, false)
  else (c, true)

/-- `Client.init`: the internal listener, then the public one. -/
def Client.init (intOk pubOk : Bool) (c : Client) : Client × Bool :=
  match listenAndAccept intOk c with
  | (c1, true) => (c1, true)
  | (c1, false) => listenAndAccept pubOk c1

/-- `NewClient`: the fresh struct (empty registry, open `done`) after `init`. -/
def NewClient (intOk pubOk : Bool) : Client × Bool :=
  Client.init intOk pubOk
    { connPairs := [], heap := [], token := 0, notified := [], wg := 0,
      acceptLoops := 0, doneClosed := false, status := RunStatus.notStarted,
      closeCalls := [], closedConns := [] }

/-- `Client.Start`: `c.wg.Add(1)`, then `go func() { c.run() }()`. -/
def Client.Start (c : Client) : Client :=
  { c with wg := c.wg + 1, status := RunStatus.running }

/-- Modelled from the spec: `PairedConn.Close` is not among the sources.
"closes both connections if present, exactly once; invokes the on-close
callback (if set) exactly once, after both connections are closed;
subsequent calls are no-ops". -/
def PairedConn.Close (c : Client) (p : Nat) : Client :=
  let c1 := { c with closeCalls := c.closeCalls ++ [p] }
  match c.heap[p]? with
  | none => c1
  | some pc =>
    if pc.closed then c1
    else
      let pc1 := { pc with closed := true }
      let c2 := { c1 with
        heap := c1.heap.set p pc1
        closedConns := c1.closedConns ++ (pc.SRC :: pc.DEST.toList) }
      match pc.OnClose with
      | none => c2
      | some k => { c2 with connPairs := Pairs.delete c2.connPairs k }

/-- Modelled from the spec: `PairedConn.Copy` is not among the sources.
"starts two independent copy directions; registers its relay tasks against a
supplied completion tracker". -/
def PairedConn.Copy (d : Decls) (c : Client) (p : Nat) : Client :=
  match c.heap[p]? with
  | none => c
  | some pc =>
    let pc1 := { pc with tasks := pc.tasks + d.copyTasks, copies := pc.copies + 1 }
    { c with heap := c.heap.set p pc1, wg := c.wg + d.copyTasks }

/-- The call `conn.Read(buf)` of `run` on a zeroed buffer of `w` bytes: the
buffer afterwards, or `none` when `err != nil`. The byte count that `Read`
returns is discarded by `run`. -/
def connRead (w : Nat) : List (List Nat) → Option Key
  | [] => none
  | chunk :: _ => some (chunk.take w ++ List.replicate (w - chunk.length) 0)

/-- The loop `for _, p := range c.connPairs { p.Close() }` over the entries
`l` present when it starts; an entry removed before it is reached is not
produced. -/
def closeAll : List (Key × Nat) → Client → Client
  | [], c => c
  | (k, _) :: rest, c =>
    match Pairs.get c.connPairs k with
    | some p => closeAll rest (PairedConn.Close c p)
    | none => closeAll rest c

/-- One iteration of the `select` loop of `Client.run`, for the case chosen
by the event (`none` for an event that is not a case of the loop). The case
`<-c.done` is ready once `done` is closed, and its `range` loop visits the
entries in an order that is a permutation of the registry. Writing through
the nil pointer of an absent key panics (a pointer that is in the registry
but not in the heap would too; no reachable state has one). -/
def Client.run (d : Decls) (c : Client) : Event → Option Client
  | Event.done order =>
    if c.doneClosed ∧ order.Perm c.connPairs then
      some { closeAll order c with status := RunStatus.returned }
    else some c
  | Event.pubConn conn =>
    let token := (c.token + 1) % d.tokenMod
    some { c with
      token := token
      heap := c.heap ++ [{ SRC := conn, DEST := none, OnClose := none,
                           closed := false, tasks := 0, copies := 0 }]
      connPairs := Pairs.store c.connPairs (d.tokenString token) c.heap.length
      notified := c.notified ++ [token] }
  | Event.intConn conn reads =>
    match connRead (d.tokenLen c.token) reads with
    | none => some { c with status := RunStatus.panicked }
    | some buf =>
      match Pairs.get c.connPairs buf with
      | none => some { c with status := RunStatus.panicked }
      | some p =>
        match c.heap[p]? with
        | none => some { c with status := RunStatus.panicked }
        | some pc =>
          let pc1 := { pc with DEST := some conn, OnClose := some buf }
          some (PairedConn.Copy d { c with heap := c.heap.set p pc1 } p)
  | _ => none

/-- The effect of one event. Nothing happens after a panic; the cases of
`run` are taken only while `run` is running. -/
def Client.step (d : Decls) (c : Client) (e : Event) : Client :=
  if c.status = RunStatus.panicked then c
  else
    match e with
    | Event.relayExit p =>
      match c.heap[p]? with
      | none => c
      | some pc =>
        if pc.tasks = 0 then c
        else
          let c1 := PairedConn.Close c p
          let pc1 := { (c1.heap.getD p pc) with tasks := pc.tasks - 1 }
          { c1 with heap := c1.heap.set p pc1, wg := c1.wg - 1 }
    | Event.acceptExit =>
      if c.doneClosed ∧ 0 < c.acceptLoops then
        { c with acceptLoops := c.acceptLoops - 1, wg := c.wg - 1 }
      else c
    | Event.acceptFail =>
      if 0 < c.acceptLoops then { c with status := RunStatus.panicked } else c
    | Event.closeDone =>
      if c.doneClosed then { c with status := RunStatus.panicked }
      else { c with doneClosed := true }
    | e =>
      if c.status = RunStatus.running then (Client.run d c e).getD c else c

/-- The state after a sequence of events. -/
def Client.exec (d : Decls) (c : Client) (evs : List Event) : Client :=
  evs.foldl (Client.step d) c

/-- An Agent Instance created by `NewClient` (both listeners bound) and
started by `Start`. -/
def boot : Client := Client.Start (NewClient true true).1

/-- `Client.Close` returns when `c.wg.Wait()` does: the counter is zero. -/
def Client.closeReturns (c : Client) : Bool :=
  c.doneClosed && decide (c.wg = 0)

/-- Modelled from the spec: a sample `Token` declaration, for evaluating the
model: a 32-bit counter serialized as four decimal digits (ASCII). -/
def sampleDecls : Decls where
  tokenMod := 2 ^ 32
  tokenLen := fun _ => 4
  tokenString := fun t =>
    [48 + t / 1000 % 10, 48 + t / 100 % 10, 48 + t / 10 % 10, 48 + t % 10]
  copyTasks := 2

/-- The public connections offered to `run` by a sequence of events, in order. -/
def pubConns : List Event → List Conn
  | [] => []
  | Event.pubConn conn :: rest => conn :: pubConns rest
  | _ :: rest => pubConns rest

/-- The relay tasks registered on `c.wg` that have not finished. -/
def relayTasks (c : Client) : Nat :=
  (c.heap.map PairedConn.tasks).sum

/-- Heap `h2` holds the sessions of `h1` with the same callbacks, and every
session closed in `h1` is closed in `h2`. -/
def HeapSim (h1 h2 : List PairedConn) : Prop :=
  h2.length = h1.length ∧
  ∀ (q : Nat) (pc : PairedConn), h1[q]? = some pc →
    ∃ pc2 : PairedConn, h2[q]? = some pc2 ∧ pc2.OnClose = pc.OnClose ∧
      (pc.closed = true → pc2.closed = true)

/-- Well-formed registry: every entry points to a session of the heap whose
callback, if set, deletes the key of that entry; no session is stored under
two keys. -/
def WF (c : Client) : Prop :=
  (∀ (k : Key) (p : Nat), Pairs.get c.connPairs k = some p →
    ∃ pc : PairedConn, c.heap[p]? = some pc ∧ (pc.OnClose = none ∨ pc.OnClose = some k)) ∧
  (∀ k1 k2 p, Pairs.get c.connPairs k1 = some p → Pairs.get c.connPairs k2 = some p → k1 = k2)

/-- The states of an Agent Instance created by `NewClient` and started by
`Start`. -/
def Reachable (d : Decls) (c : Client) : Prop :=
  ∃ evs : List Event, c = Client.exec d boot evs

/-! ## The event loop of the `client` command (`main.go`) -/

/-- The fields of `api.CreateClientResponse` that the loop reads. -/
structure Response where
  Token : String
  InternalAddress : String
  PublicAddress : String
deriving DecidableEq, Repr

/-- The error codes of `conClient.Recv()` that the loop tells apart. -/
inductive RecvError where
  | canceled
  | unavailable
  | other
deriving DecidableEq, Repr

/-- Whether each network call made for one event returns a nil error. -/
structure NetOutcome where
  dialInternal : Bool
  write : Bool
  dialBackend : Bool
deriving DecidableEq, Repr

/-- What the loop does to the outside world. -/
inductive Action where
  | dial (addr : String)
  | write (bytes : String)
  | copy
  | print (line : String)
  | logClosed
deriving DecidableEq, Repr

/-- Where the loop stands: blocked in `Recv`, returned, or panicked. -/
inductive LoopStatus where
  | receiving
  | returned
  | panicked
deriving DecidableEq, Repr

/-- The body of the loop for a received `resp` (lines 135-156 of `main.go`):
the actions taken and whether the body panicked. -/
def newClientCmd.handle (host port : String) (resp : Response) (net : NetOutcome) :
    List Action × Bool :=
  if resp.InternalAddress ≠ "" then
    if !net.dialInternal then ([Action.dial resp.InternalAddress], true)
    else if !net.write then
      ([Action.dial resp.InternalAddress, Action.write resp.Token], true)
    else if !net.dialBackend then
      ([Action.dial resp.InternalAddress, Action.write resp.Token,
        Action.dial (host ++ ":" ++ port)], true)
    else
      ([Action.dial resp.InternalAddress, Action.write resp.Token,
        Action.dial (host ++ ":" ++ port), Action.copy], false)
  else ([Action.print ("PUBLIC ADDRESS: " ++ resp.PublicAddress ++ "\n")], false)

/-- The `for` loop of the `client` command (lines 123-157 of `main.go`) over
the results of successive `conClient.Recv()` calls, each with the outcome of
the network calls its handling makes. -/
def newClientCmd.loop (host port : String) :
    List (Except RecvError Response × NetOutcome) → List Action × LoopStatus
  | [] => ([], LoopStatus.receiving)
  | (Except.error RecvError.canceled, _) :: _ => ([], LoopStatus.returned)
  | (Except.error RecvError.unavailable, _) :: _ => ([Action.logClosed], LoopStatus.returned)
  | (Except.error RecvError.other, _) :: _ => ([], LoopStatus.panicked)
  | (Except.ok resp, net) :: rest =>
    match newClientCmd.handle host port resp net with
    | (acts, true) => (acts, LoopStatus.panicked)
    | (acts, false) =>
      ((acts ++ (newClientCmd.loop host port rest).1), (newClientCmd.loop host port rest).2)

/-- The body treats `resp` as the informational event: it prints the public
address and dials nothing. -/
def treatsAsInformational (host port : String) (resp : Response) (net : NetOutcome) : Prop :=
  (newClientCmd.handle host port resp net).1
    = [Action.print ("PUBLIC ADDRESS: " ++ resp.PublicAddress ++ "\n")]

/-- The body treats `resp` as callback-required: it starts by dialing the
internal address and prints nothing. -/
def treatsAsCallback (host port : String) (resp : Response) (net : NetOutcome) : Prop :=
  (newClientCmd.handle host port resp net).1.head? = some (Action.dial resp.InternalAddress)

/-- Whether every network call of one event succeeds. -/
def NetOutcome.allOk (net : NetOutcome) : Bool :=
  net.dialInternal && net.write && net.dialBackend

/-! ## Single steps of `run` -/

/-- The handling of a callback connection whose key is in the registry: the
session stored under the key gets the connection as far side and the
deregistering callback, and `Copy` is called on it. -/
theorem step_intConn_match (d : Decls) (c : Client) (conn : Conn)
    (reads : List (List Nat)) (K : Key) (p : Nat) (pc : PairedConn)
    (hrun : c.status = RunStatus.running)
    (hread : connRead (d.tokenLen c.token) reads = some K)
    (hget : Pairs.get c.connPairs K = some p)
    (hheap : c.heap[p]? = some pc) :
    Client.step d c (Event.intConn conn reads)
      = { c with
          heap := c.heap.set p
            { pc with DEST := some conn, OnClose := some K,
                      tasks := pc.tasks + d.copyTasks, copies := pc.copies + 1 }
          wg := c.wg + d.copyTasks } := by
  have hp : p < c.heap.length := by
    by_contra hlt
    rw [List.getElem?_eq_none (Nat.le_of_not_lt hlt)] at hheap
    exact absurd hheap (by simp)
  simp [Client.step, Client.run, hrun, hread, hget, hheap, PairedConn.Copy, hp]

/-- The handling of a callback connection whose key is not in the registry:
`run` panics and nothing else changes. -/
theorem step_intConn_absent (d : Decls) (c : Client) (conn : Conn)
    (reads : List (List Nat)) (buf : Key)
    (hrun : c.status = RunStatus.running)
    (hread : connRead (d.tokenLen c.token) reads = some buf)
    (habs : Pairs.get c.connPairs buf = none) :
    Client.step d c (Event.intConn conn reads)
      = { c with status := RunStatus.panicked } := by
  simp [Client.step, Client.run, hrun, hread, habs]

/-! ## `Close` and the shutdown loop -/

theorem Pairs.get_delete (m : Pairs) (k k2 : Key) :
    Pairs.get (Pairs.delete m k) k2 = if k2 = k then none else Pairs.get m k2 := by
  induction m with
  | nil => simp [Pairs.delete, Pairs.get]
  | cons e rest ih =>
    obtain ⟨k1, p1⟩ := e
    unfold Pairs.delete at ih ⊢
    by_cases h1 : k1 = k
    · subst h1
      by_cases h2 : k2 = k1
      · simpa [List.filter, h2] using ih
      · have h3 : ¬ k1 = k2 := fun h => h2 h.symm
        simpa [List.filter, Pairs.get, h2, h3] using ih
    · by_cases h2 : k1 = k2
      · subst h2
        simp [List.filter, h1, Pairs.get]
      · simp only [List.filter, h1, Pairs.get, h2, ne_eq, not_false_eq_true, decide_True,
          if_false]
        exact ih

theorem Pairs.get_store (m : Pairs) (k k2 : Key) (p : Nat) :
    Pairs.get (Pairs.store m k p) k2 = if k2 = k then some p else Pairs.get m k2 := by
  unfold Pairs.store
  by_cases h : k = k2
  · subst h
    simp [Pairs.get]
  · have h2 : ¬ k2 = k := fun e => h e.symm
    simp [Pairs.get, h, h2, Pairs.get_delete]

theorem Pairs.mem_of_get (m : Pairs) (k : Key) (p : Nat) (h : Pairs.get m k = some p) :
    (k, p) ∈ m := by
  induction m with
  | nil => simp [Pairs.get] at h
  | cons e rest ih =>
    obtain ⟨k1, p1⟩ := e
    by_cases h1 : k1 = k
    · simp [Pairs.get, h1] at h
      simp [h1, h]
    · simp [Pairs.get, h1] at h
      exact List.mem_cons_of_mem _ (ih h)

/-- What one call of `Close` does: nothing but the call record when the
session is unknown or closed already; otherwise the session is marked closed,
its connections are closed and its callback runs. -/
theorem Close_cases (c : Client) (p : Nat) :
    PairedConn.Close c p = { c with closeCalls := c.closeCalls ++ [p] } ∨
    ∃ pc, c.heap[p]? = some pc ∧ pc.closed = false ∧
      PairedConn.Close c p =
        { c with
          closeCalls := c.closeCalls ++ [p]
          heap := c.heap.set p { pc with closed := true }
          closedConns := c.closedConns ++ (pc.SRC :: pc.DEST.toList)
          connPairs :=
            match pc.OnClose with
            | none => c.connPairs
            | some k => Pairs.delete c.connPairs k } := by
  unfold PairedConn.Close
  cases hh : c.heap[p]? with
  | none => left; rfl
  | some pc =>
    obtain ⟨s, t, oc, cl, n, m⟩ := pc
    cases cl with
    | true => left; simp
    | false =>
      right
      refine ⟨_, rfl, rfl, ?_⟩
      cases oc <;> simp

theorem sum_tasks_set (l : List PairedConn) (p : Nat) (pc pc2 : PairedConn)
    (h : l[p]? = some pc) :
    ((l.set p pc2).map PairedConn.tasks).sum + pc.tasks
      = (l.map PairedConn.tasks).sum + pc2.tasks := by
  induction l generalizing p with
  | nil => simp at h
  | cons a rest ih =>
    cases p with
    | zero =>
      simp at h
      subst h
      simp only [List.set_cons_zero, List.map_cons, List.sum_cons]
      omega
    | succ n =>
      simp at h
      have h2 := ih n h
      simp only [List.set_cons_succ, List.map_cons, List.sum_cons]
      omega

/-- The fields that `Close` leaves alone. -/
theorem Close_frame (c : Client) (p : Nat) :
    (PairedConn.Close c p).token = c.token ∧
    (PairedConn.Close c p).notified = c.notified ∧
    (PairedConn.Close c p).wg = c.wg ∧
    (PairedConn.Close c p).acceptLoops = c.acceptLoops ∧
    (PairedConn.Close c p).doneClosed = c.doneClosed ∧
    (PairedConn.Close c p).status = c.status ∧
    (PairedConn.Close c p).heap.length = c.heap.length ∧
    relayTasks (PairedConn.Close c p) = relayTasks c := by
  rcases Close_cases c p with h | ⟨pc, hh, _, h⟩
  · rw [h]
    exact ⟨rfl, rfl, rfl, rfl, rfl, rfl, rfl, rfl⟩
  · rw [h]
    refine ⟨rfl, rfl, rfl, rfl, rfl, rfl, by simp, ?_⟩
    have h2 := sum_tasks_set c.heap p pc { pc with closed := true } hh
    simp only [relayTasks] at *
    omega

theorem closeAll_frame (l : List (Key × Nat)) (c : Client) :
    (closeAll l c).token = c.token ∧
    (closeAll l c).notified = c.notified ∧
    (closeAll l c).wg = c.wg ∧
    (closeAll l c).acceptLoops = c.acceptLoops ∧
    (closeAll l c).doneClosed = c.doneClosed ∧
    (closeAll l c).status = c.status ∧
    (closeAll l c).heap.length = c.heap.length ∧
    relayTasks (closeAll l c) = relayTasks c := by
  induction l generalizing c with
  | nil => exact ⟨rfl, rfl, rfl, rfl, rfl, rfl, rfl, rfl⟩
  | cons e rest ih =>
    obtain ⟨k, p0⟩ := e
    unfold closeAll
    cases hg : Pairs.get c.connPairs k with
    | none => simpa using ih c
    | some p =>
      simp only
      obtain ⟨a1, a2, a3, a4, a5, a6, a7, a8⟩ := ih (PairedConn.Close c p)
      obtain ⟨b1, b2, b3, b4, b5, b6, b7, b8⟩ := Close_frame c p
      exact ⟨a1.trans b1, a2.trans b2, a3.trans b3, a4.trans b4, a5.trans b5, a6.trans b6,
        a7.trans b7, a8.trans b8⟩

/-- The session that `Close` leaves at `p` keeps its tasks and callback. -/
theorem Close_heap_at (c : Client) (p : Nat) (pc : PairedConn) (h : c.heap[p]? = some pc) :
    ∃ pcx : PairedConn, (PairedConn.Close c p).heap[p]? = some pcx ∧
      pcx.tasks = pc.tasks ∧ pcx.OnClose = pc.OnClose ∧ pcx.closed = true := by
  have hp : p < c.heap.length := by
    by_contra hlt
    rw [List.getElem?_eq_none (Nat.le_of_not_lt hlt)] at h
    exact absurd h (by simp)
  unfold PairedConn.Close
  simp only [h]
  by_cases hc : pc.closed = true
  · exact ⟨pc, by simp [hc, h], rfl, rfl, hc⟩
  · refine ⟨{ pc with closed := true }, ?_, rfl, rfl, rfl⟩
    cases ho : pc.OnClose <;> simp [hc, hp]

/-- Every step of the system is of one of these kinds. -/
theorem step_cases (d : Decls) (c : Client) (e : Event) :
    Client.step d c e = c ∨
    Client.step d c e = { c with status := RunStatus.panicked } ∨
    Client.step d c e = { c with doneClosed := true } ∨
    (c.doneClosed = true ∧ 0 < c.acceptLoops ∧
      Client.step d c e = { c with acceptLoops := c.acceptLoops - 1, wg := c.wg - 1 }) ∨
    (∃ order, c.doneClosed = true ∧ order.Perm c.connPairs ∧
      Client.step d c e = { closeAll order c with status := RunStatus.returned }) ∨
    (∃ conn, e = Event.pubConn conn ∧ c.status = RunStatus.running ∧ Client.step d c e =
      { c with
        token := (c.token + 1) % d.tokenMod
        heap := c.heap ++ [PairedConn.mk conn none none false 0 0]
        connPairs :=
          Pairs.store c.connPairs (d.tokenString ((c.token + 1) % d.tokenMod)) c.heap.length
        notified := c.notified ++ [(c.token + 1) % d.tokenMod] }) ∨
    (∃ conn K p pc, Pairs.get c.connPairs K = some p ∧ c.heap[p]? = some pc ∧
      Client.step d c e =
        { c with
          heap := c.heap.set p
            (PairedConn.mk pc.SRC (some conn) (some K) pc.closed (pc.tasks + d.copyTasks)
              (pc.copies + 1))
          wg := c.wg + d.copyTasks }) ∨
    (∃ p pc pcx, c.heap[p]? = some pc ∧ pc.tasks ≠ 0 ∧
      (PairedConn.Close c p).heap[p]? = some pcx ∧ pcx.tasks = pc.tasks ∧
      pcx.OnClose = pc.OnClose ∧
      Client.step d c e =
        { PairedConn.Close c p with
          heap := (PairedConn.Close c p).heap.set p { pcx with tasks := pc.tasks - 1 }
          wg := (PairedConn.Close c p).wg - 1 }) := by
  by_cases hp : c.status = RunStatus.panicked
  · left
    simp [Client.step, hp]
  · cases e with
    | done order =>
      by_cases hr : c.status = RunStatus.running
      · by_cases hd : c.doneClosed = true ∧ order.Perm c.connPairs
        · right; right; right; right; left
          exact ⟨order, hd.1, hd.2, by simp [Client.step, Client.run, hr, hd]⟩
        · left
          simp only [Client.step, Client.run, hr, hp, if_true, if_false]
          rw [if_neg hd]
          rfl
      · left
        simp [Client.step, hp, hr]
    | pubConn conn =>
      by_cases hr : c.status = RunStatus.running
      · right; right; right; right; right; left
        exact ⟨conn, rfl, hr, by simp [Client.step, Client.run, hr]⟩
      · left
        simp [Client.step, hp, hr]
    | intConn conn reads =>
      by_cases hr : c.status = RunStatus.running
      · cases hread : connRead (d.tokenLen c.token) reads with
        | none =>
          right; left
          simp [Client.step, Client.run, hr, hread]
        | some buf =>
          cases hget : Pairs.get c.connPairs buf with
          | none =>
            right; left
            exact step_intConn_absent d c conn reads buf hr hread hget
          | some p =>
            cases hheap : c.heap[p]? with
            | none =>
              right; left
              simp [Client.step, Client.run, hr, hread, hget, hheap]
            | some pc =>
              right; right; right; right; right; right; left
              exact ⟨conn, buf, p, pc, hget, hheap,
                step_intConn_match d c conn reads buf p pc hr hread hget hheap⟩
      · left
        simp [Client.step, hp, hr]
    | relayExit p =>
      cases hheap : c.heap[p]? with
      | none =>
        left
        simp [Client.step, hp, hheap]
      | some pc =>
        by_cases ht : pc.tasks = 0
        · left
          simp [Client.step, hp, hheap, ht]
        · right; right; right; right; right; right; right
          obtain ⟨pcx, hx, htk, hoc, _⟩ := Close_heap_at c p pc hheap
          refine ⟨p, pc, pcx, hheap, ht, hx, htk, hoc, ?_⟩
          simp [Client.step, hp, hheap, ht, List.getD_eq_getElem?_getD, hx]
    | acceptExit =>
      by_cases ha : c.doneClosed = true ∧ 0 < c.acceptLoops
      · right; right; right; left
        exact ⟨ha.1, ha.2, by simp [Client.step, hp, ha]⟩
      · left
        simp only [Client.step, hp, if_false]
        rw [if_neg ha]
    | acceptFail =>
      by_cases ha : 0 < c.acceptLoops
      · right; left
        simp [Client.step, hp, ha]
      · left
        simp [Client.step, hp, ha]
    | closeDone =>
      by_cases hd : c.doneClosed = true
      · right; left
        simp [Client.step, hp, hd]
      · right; right; left
        simp [Client.step, hp, hd]

/-- The counter of `c.wg` counts the running accept loops, the running relay
tasks, and the `Add(1)` of `Start`, which no `Done` ever takes back. -/
theorem step_wg (d : Decls) (c : Client) (e : Event)
    (h : c.wg = (c.acceptLoops : Int) + (relayTasks c : Int) + 1) :
    (Client.step d c e).wg
      = ((Client.step d c e).acceptLoops : Int) + (relayTasks (Client.step d c e) : Int) + 1 := by
  rcases step_cases d c e with hs | hs | hs | ⟨_, ha, hs⟩ | ⟨order, _, _, hs⟩ | ⟨conn, _, _, hs⟩ |
    ⟨conn, K, p, pc, _, hheap, hs⟩ | ⟨p, pc, pcx, hheap, ht, hx, htk, _, hs⟩
  · rw [hs]; exact h
  · rw [hs]; exact h
  · rw [hs]; exact h
  · rw [hs]
    simp only [relayTasks] at *
    omega
  · rw [hs]
    obtain ⟨_, _, a3, a4, _, _, _, a8⟩ := closeAll_frame order c
    simp only [relayTasks] at *
    rw [a3, a4, a8]
    exact h
  · rw [hs]
    simp only [relayTasks] at *
    simpa using h
  · rw [hs]
    have h2 := sum_tasks_set c.heap p pc
      (PairedConn.mk pc.SRC (some conn) (some K) pc.closed (pc.tasks + d.copyTasks)
        (pc.copies + 1)) hheap
    simp only [relayTasks] at *
    omega
  · rw [hs]
    obtain ⟨_, _, a3, a4, _, _, _, a8⟩ := Close_frame c p
    have h2 := sum_tasks_set (PairedConn.Close c p).heap p pcx
      { pcx with tasks := pc.tasks - 1 } hx
    simp only [relayTasks] at *
    rw [a3, a4]
    omega

theorem exec_wg (d : Decls) (evs : List Event) (c : Client)
    (h : c.wg = (c.acceptLoops : Int) + (relayTasks c : Int) + 1) :
    (Client.exec d c evs).wg
      = ((Client.exec d c evs).acceptLoops : Int) + (relayTasks (Client.exec d c evs) : Int)
        + 1 := by
  induction evs generalizing c with
  | nil => exact h
  | cons e rest ih => exact ih (Client.step d c e) (step_wg d c e h)

/-! ## Tokens -/

theorem map_SRC_set (l : List PairedConn) (p : Nat) (pc pc2 : PairedConn)
    (h : l[p]? = some pc) (hs : pc2.SRC = pc.SRC) :
    (l.set p pc2).map PairedConn.SRC = l.map PairedConn.SRC := by
  induction l generalizing p with
  | nil => simp
  | cons a rest ih =>
    cases p with
    | zero =>
      simp at h
      subst h
      simp [hs]
    | succ n =>
      simp at h
      simp only [List.set_cons_succ, List.map_cons, ih n h]

theorem Close_SRC (c : Client) (p : Nat) :
    (PairedConn.Close c p).heap.map PairedConn.SRC = c.heap.map PairedConn.SRC := by
  rcases Close_cases c p with h | ⟨pc, hh, _, h⟩
  · rw [h]
  · rw [h]
    exact map_SRC_set c.heap p pc _ hh rfl

theorem closeAll_SRC (l : List (Key × Nat)) (c : Client) :
    (closeAll l c).heap.map PairedConn.SRC = c.heap.map PairedConn.SRC := by
  induction l generalizing c with
  | nil => rfl
  | cons e rest ih =>
    obtain ⟨k, p0⟩ := e
    unfold closeAll
    cases hg : Pairs.get c.connPairs k with
    | none => simpa using ih c
    | some p =>
      simp only
      rw [ih, Close_SRC]

/-- A step that is not the acceptance of a public connection assigns no
token, notifies nothing and creates no session. -/
theorem step_nonpub (d : Decls) (c : Client) (e : Event)
    (hne : ∀ conn, e ≠ Event.pubConn conn) :
    (Client.step d c e).token = c.token ∧
    (Client.step d c e).notified = c.notified ∧
    (Client.step d c e).heap.map PairedConn.SRC = c.heap.map PairedConn.SRC := by
  rcases step_cases d c e with hs | hs | hs | ⟨_, _, hs⟩ | ⟨order, _, _, hs⟩ | ⟨conn, he, _, _⟩ |
    ⟨conn, K, p, pc, _, hheap, hs⟩ | ⟨p, pc, pcx, hheap, ht, hx, htk, _, hs⟩
  · rw [hs]
    exact ⟨rfl, rfl, rfl⟩
  · rw [hs]
    exact ⟨rfl, rfl, rfl⟩
  · rw [hs]
    exact ⟨rfl, rfl, rfl⟩
  · rw [hs]
    exact ⟨rfl, rfl, rfl⟩
  · rw [hs]
    obtain ⟨a1, a2, _⟩ := closeAll_frame order c
    exact ⟨a1, a2, closeAll_SRC order c⟩
  · exact absurd he (hne conn)
  · rw [hs]
    exact ⟨rfl, rfl, map_SRC_set c.heap p pc _ hheap rfl⟩
  · rw [hs]
    obtain ⟨a1, a2, _⟩ := Close_frame c p
    refine ⟨a1, a2, ?_⟩
    exact (map_SRC_set (PairedConn.Close c p).heap p pcx
      { pcx with tasks := pc.tasks - 1 } hx rfl).trans (Close_SRC c p)

/-- No step brings `run` back to running. -/
theorem step_status_running (d : Decls) (c : Client) (e : Event)
    (h : (Client.step d c e).status = RunStatus.running) : c.status = RunStatus.running := by
  rcases step_cases d c e with hs | hs | hs | ⟨_, _, hs⟩ | ⟨order, _, _, hs⟩ | ⟨conn, _, hr, _⟩ |
    ⟨conn, K, p, pc, _, hheap, hs⟩ | ⟨p, pc, pcx, hheap, ht, hx, htk, _, hs⟩
  · rw [hs] at h
    exact h
  · rw [hs] at h
    exact absurd h (by simp)
  · rw [hs] at h
    exact h
  · rw [hs] at h
    exact h
  · rw [hs] at h
    exact absurd h (by simp)
  · exact hr
  · rw [hs] at h
    exact h
  · rw [hs] at h
    obtain ⟨_, _, _, _, _, a6, _⟩ := Close_frame c p
    rw [← a6]
    exact h

theorem pubConns_cons_nonpub (e : Event) (rest : List Event)
    (hne : ∀ conn, e ≠ Event.pubConn conn) : pubConns (e :: rest) = pubConns rest := by
  cases e with
  | pubConn conn => exact absurd rfl (hne conn)
  | done order => rfl
  | intConn conn reads => rfl
  | relayExit p => rfl
  | acceptExit => rfl
  | acceptFail => rfl
  | closeDone => rfl

/-- Along any sequence of events, while the counter stays in its range: the
token is the number of sessions created, the tokens notified are the next
consecutive numbers, and while `run` is running every public connection
offered got a session, in order. -/
theorem exec_tokens (d : Decls) (evs : List Event) (c : Client)
    (htok : c.token = c.heap.length)
    (hmod : c.heap.length + (pubConns evs).length < d.tokenMod) :
    (Client.exec d c evs).token = (Client.exec d c evs).heap.length ∧
    (∃ n, n ≤ (pubConns evs).length ∧
      (Client.exec d c evs).heap.length = c.heap.length + n ∧
      (Client.exec d c evs).notified = c.notified ++ List.range' (c.heap.length + 1) n) ∧
    ((Client.exec d c evs).status = RunStatus.running →
      c.status = RunStatus.running ∧
      (Client.exec d c evs).heap.map PairedConn.SRC
        = c.heap.map PairedConn.SRC ++ pubConns evs) := by
  induction evs generalizing c with
  | nil =>
    refine ⟨htok, ⟨0, Nat.le_refl _, rfl, by simp [Client.exec]⟩, ?_⟩
    intro h
    exact ⟨h, by simp [Client.exec, pubConns]⟩
  | cons e rest ih =>
    have hex : Client.exec d c (e :: rest) = Client.exec d (Client.step d c e) rest := rfl
    rw [hex]
    by_cases hpub : ∃ conn, e = Event.pubConn conn
    · obtain ⟨conn, rfl⟩ := hpub
      have hlen : (pubConns (Event.pubConn conn :: rest)).length
          = (pubConns rest).length + 1 := rfl
      rw [hlen] at hmod
      by_cases hr : c.status = RunStatus.running
      · have hs : Client.step d c (Event.pubConn conn) =
            { c with
              token := (c.token + 1) % d.tokenMod
              heap := c.heap ++ [PairedConn.mk conn none none false 0 0]
              connPairs := Pairs.store c.connPairs
                (d.tokenString ((c.token + 1) % d.tokenMod)) c.heap.length
              notified := c.notified ++ [(c.token + 1) % d.tokenMod] } := by
          simp [Client.step, Client.run, hr]
        have hmodeq : (c.token + 1) % d.tokenMod = c.heap.length + 1 := by
          rw [htok]
          exact Nat.mod_eq_of_lt (by omega)
        rw [hs, hmodeq]
        obtain ⟨i1, ⟨n, hn, hl, hnot⟩, i3⟩ := ih
          { c with
            token := c.heap.length + 1
            heap := c.heap ++ [PairedConn.mk conn none none false 0 0]
            connPairs := Pairs.store c.connPairs (d.tokenString (c.heap.length + 1))
              c.heap.length
            notified := c.notified ++ [c.heap.length + 1] }
          (by simp) (by simp only [List.length_append, List.length_singleton]; omega)
        refine ⟨i1, ⟨n + 1, by omega, ?_, ?_⟩, ?_⟩
        · rw [hl]
          simp only [List.length_append, List.length_singleton]
          omega
        · rw [hnot]
          simp only [List.length_append, List.length_singleton, List.append_assoc,
            List.singleton_append]
          rw [List.range'_succ]
        · intro h
          obtain ⟨_, j2⟩ := i3 h
          refine ⟨hr, ?_⟩
          rw [j2]
          simp [pubConns]
      · have hs : Client.step d c (Event.pubConn conn) = c := by
          by_cases hp : c.status = RunStatus.panicked
          · simp [Client.step, hp]
          · simp [Client.step, hp, hr]
        rw [hs]
        obtain ⟨i1, ⟨n, hn, hl, hnot⟩, i3⟩ := ih c htok (by omega)
        refine ⟨i1, ⟨n, by omega, hl, hnot⟩, ?_⟩
        intro h
        exact absurd (i3 h).1 hr
    · have hne : ∀ conn, e ≠ Event.pubConn conn := fun conn he => hpub ⟨conn, he⟩
      obtain ⟨a1, a2, a3⟩ := step_nonpub d c e hne
      have hlen : (Client.step d c e).heap.length = c.heap.length := by
        have := congrArg List.length a3
        simpa using this
      rw [pubConns_cons_nonpub e rest hne] at hmod ⊢
      obtain ⟨i1, ⟨n, hn, hl, hnot⟩, i3⟩ := ih (Client.step d c e)
        (by rw [a1, hlen]; exact htok) (by rw [hlen]; exact hmod)
      refine ⟨i1, ⟨n, hn, by rw [hl, hlen], by rw [hnot, a2, hlen]⟩, ?_⟩
      intro h
      obtain ⟨j1, j2⟩ := i3 h
      exact ⟨step_status_running d c e j1, by rw [j2, a3]⟩

theorem exec_append_one (d : Decls) (c : Client) (evs : List Event) (e : Event) :
    Client.exec d c (evs ++ [e]) = Client.step d (Client.exec d c evs) e := by
  simp [Client.exec, List.foldl_append]

/-- The tokens notified for `n` public connections in a row, whatever the
range of the counter: the k-th token is `k` modulo the number of values. -/
theorem exec_replicate_pubConn (d : Decls) (conn : Conn) (n : Nat) :
    (Client.exec d boot (List.replicate n (Event.pubConn conn))).status = RunStatus.running ∧
    (Client.exec d boot (List.replicate n (Event.pubConn conn))).token % d.tokenMod
      = n % d.tokenMod ∧
    (Client.exec d boot (List.replicate n (Event.pubConn conn))).notified
      = (List.range n).map (fun i => (i + 1) % d.tokenMod) := by
  induction n with
  | zero => exact ⟨rfl, rfl, rfl⟩
  | succ n ih =>
    obtain ⟨hr, ht, hn⟩ := ih
    rw [List.replicate_succ', exec_append_one]
    have hs : Client.step d (Client.exec d boot (List.replicate n (Event.pubConn conn)))
        (Event.pubConn conn) =
        { Client.exec d boot (List.replicate n (Event.pubConn conn)) with
          token := ((Client.exec d boot (List.replicate n (Event.pubConn conn))).token + 1)
            % d.tokenMod
          heap := (Client.exec d boot (List.replicate n (Event.pubConn conn))).heap
            ++ [PairedConn.mk conn none none false 0 0]
          connPairs := Pairs.store
            (Client.exec d boot (List.replicate n (Event.pubConn conn))).connPairs
            (d.tokenString
              (((Client.exec d boot (List.replicate n (Event.pubConn conn))).token + 1)
                % d.tokenMod))
            (Client.exec d boot (List.replicate n (Event.pubConn conn))).heap.length
          notified := (Client.exec d boot (List.replicate n (Event.pubConn conn))).notified
            ++ [((Client.exec d boot (List.replicate n (Event.pubConn conn))).token + 1)
              % d.tokenMod] } := by
      simp [Client.step, Client.run, hr]
    have hmod : ((Client.exec d boot (List.replicate n (Event.pubConn conn))).token + 1)
        % d.tokenMod = (n + 1) % d.tokenMod := by
      rw [Nat.add_mod, ht, ← Nat.add_mod]
    rw [hs, hmod]
    refine ⟨hr, Nat.mod_mod _ _, ?_⟩
    simp only
    rw [hn, List.range_succ, List.map_append]
    rfl

/-- C4, as stated, fails once the counter wraps: with a 32-bit token counter,
the tokens notified for 2^32 + 1 public connections accepted in a row are
neither strictly increasing nor pairwise distinct (the last connection is
notified with token 1, as the first was). -/
theorem run_tokens_wrap :
    ¬ (Client.exec sampleDecls boot
        (List.replicate (2 ^ 32 + 1) (Event.pubConn 7))).notified.Pairwise
          (fun a b => a < b) ∧
    ¬ (Client.exec sampleDecls boot
        (List.replicate (2 ^ 32 + 1) (Event.pubConn 7))).notified.Nodup := by
  have hnd : ¬ (Client.exec sampleDecls boot
      (List.replicate (2 ^ 32 + 1) (Event.pubConn 7))).notified.Nodup := by
    rw [(exec_replicate_pubConn sampleDecls 7 (2 ^ 32 + 1)).2.2]
    intro h
    have h0 : (0 : Nat) ∈ List.range (2 ^ 32 + 1) := List.mem_range.mpr (by norm_num)
    have h1 : (2 ^ 32 : Nat) ∈ List.range (2 ^ 32 + 1) := List.mem_range.mpr (by norm_num)
    have heq := List.inj_on_of_nodup_map h h0 h1 (by norm_num [sampleDecls])
    norm_num at heq
  refine ⟨?_, hnd⟩
  intro h
  exact hnd (h.imp (fun hab => Nat.ne_of_lt hab))

/-- C4, amended: for every sequence of events of an Agent Instance in which
fewer public connections arrive than the token counter has values, the tokens
that `run` sends on `NewPubConnNotifyCH` are 1, 2, ..., one per session created,
in accept order: strictly increasing and pairwise distinct; and as long as `run`
is running, the sessions created are those of the public connections
offered, in order (the k-th connection got token k). -/
theorem run_tokens_strictly_increasing (d : Decls) (evs : List Event)
    (hmod : (pubConns evs).length < d.tokenMod) :
    (Client.exec d boot evs).notified
      = List.range' 1 (Client.exec d boot evs).heap.length ∧
    (Client.exec d boot evs).notified.Pairwise (fun a b => a < b) ∧
    (Client.exec d boot evs).notified.Nodup ∧
    ((Client.exec d boot evs).status = RunStatus.running →
      (Client.exec d boot evs).heap.map PairedConn.SRC = pubConns evs) := by
  obtain ⟨_, ⟨n, _, hl, hnot⟩, i3⟩ := exec_tokens d evs boot rfl
    (by simpa [boot, Client.Start, NewClient, Client.init, listenAndAccept] using hmod)
  have hb : boot.heap.length = 0 := rfl
  have hn : boot.notified = [] := rfl
  rw [hb, Nat.zero_add] at hl
  rw [hb, hn, List.nil_append, Nat.zero_add, ← hl] at hnot
  refine ⟨hnot, ?_, ?_, ?_⟩
  · rw [hnot]
    exact List.pairwise_lt_range' 1 _
  · rw [hnot]
    exact List.nodup_range' 1 _
  · intro h
    have h2 := (i3 h).2
    simpa [boot, Client.Start, NewClient, Client.init, listenAndAccept] using h2

/-- C4 at three public connections with a callback connection in between. -/
theorem run_tokens_strictly_increasing_witness :
    (Client.exec sampleDecls boot
      [Event.pubConn 7, Event.pubConn 8, Event.intConn 9 [[48, 48, 48, 50]],
       Event.pubConn 11]).notified = [1, 2, 3] :=
  (run_tokens_strictly_increasing sampleDecls
    [Event.pubConn 7, Event.pubConn 8, Event.intConn 9 [[48, 48, 48, 50]],
     Event.pubConn 11] (by decide)).1

/-! ## Well-formedness of the registry -/

theorem heap_lt_of_get (l : List PairedConn) (p : Nat) (pc : PairedConn)
    (h : l[p]? = some pc) : p < l.length := by
  by_contra hlt
  rw [List.getElem?_eq_none (Nat.le_of_not_lt hlt)] at h
  exact absurd h (by simp)

theorem HeapSim_refl (h : List PairedConn) : HeapSim h h :=
  ⟨rfl, fun _ pc hq => ⟨pc, hq, rfl, fun x => x⟩⟩

theorem HeapSim_trans (h1 h2 h3 : List PairedConn) (a : HeapSim h1 h2) (b : HeapSim h2 h3) :
    HeapSim h1 h3 := by
  refine ⟨b.1.trans a.1, ?_⟩
  intro q pc hq
  obtain ⟨pc2, hq2, ho2, hc2⟩ := a.2 q pc hq
  obtain ⟨pc3, hq3, ho3, hc3⟩ := b.2 q pc2 hq2
  exact ⟨pc3, hq3, ho3.trans ho2, fun x => hc3 (hc2 x)⟩

theorem HeapSim_set (h : List PairedConn) (p : Nat) (pc pc2 : PairedConn)
    (hh : h[p]? = some pc) (ho : pc2.OnClose = pc.OnClose)
    (hc : pc.closed = true → pc2.closed = true) : HeapSim h (h.set p pc2) := by
  refine ⟨List.length_set _ _ _, ?_⟩
  intro q pcq hq
  by_cases hqp : p = q
  · subst hqp
    rw [hh] at hq
    cases hq
    exact ⟨pc2, List.getElem?_set_self (heap_lt_of_get h p pc hh), ho, hc⟩
  · exact ⟨pcq, by rw [List.getElem?_set_ne hqp]; exact hq, rfl, fun x => x⟩

theorem Close_sim (c : Client) (p : Nat) : HeapSim c.heap (PairedConn.Close c p).heap := by
  rcases Close_cases c p with h | ⟨pc, hh, _, h⟩
  · rw [h]
    exact HeapSim_refl _
  · rw [h]
    exact HeapSim_set c.heap p pc _ hh rfl (fun _ => rfl)

/-- The registry after `Close`: as before, or without the key that the
callback of the session deletes. -/
theorem Close_pairs (c : Client) (p : Nat) :
    (PairedConn.Close c p).connPairs = c.connPairs ∨
    ∃ pc k, c.heap[p]? = some pc ∧ pc.OnClose = some k ∧
      (PairedConn.Close c p).connPairs = Pairs.delete c.connPairs k := by
  rcases Close_cases c p with h | ⟨pc, hh, _, h⟩
  · left
    rw [h]
  · cases ho : pc.OnClose with
    | none =>
      left
      rw [h]
      simp [ho]
    | some k =>
      right
      refine ⟨pc, k, hh, ho, ?_⟩
      rw [h]
      simp [ho]

theorem Close_pairs_sub (c : Client) (p : Nat) (k : Key) (q : Nat)
    (h : Pairs.get (PairedConn.Close c p).connPairs k = some q) :
    Pairs.get c.connPairs k = some q := by
  rcases Close_pairs c p with hc | ⟨pc, k0, _, _, hc⟩
  · rw [hc] at h
    exact h
  · rw [hc, Pairs.get_delete] at h
    by_cases hk : k = k0
    · simp [hk] at h
    · simpa [hk] using h

theorem WF_of_sim (c c2 : Client) (hwf : WF c) (hs : HeapSim c.heap c2.heap)
    (hp : ∀ k q, Pairs.get c2.connPairs k = some q → Pairs.get c.connPairs k = some q) :
    WF c2 := by
  refine ⟨?_, ?_⟩
  · intro k q hg
    obtain ⟨pc, hh, ho⟩ := hwf.1 k q (hp k q hg)
    obtain ⟨pc2, hh2, ho2, _⟩ := hs.2 q pc hh
    exact ⟨pc2, hh2, by rw [ho2]; exact ho⟩
  · intro k1 k2 q h1 h2
    exact hwf.2 k1 k2 q (hp k1 q h1) (hp k2 q h2)

theorem WF_Close (c : Client) (p : Nat) (hwf : WF c) : WF (PairedConn.Close c p) :=
  WF_of_sim c _ hwf (Close_sim c p) (Close_pairs_sub c p)

/-- The shutdown loop over the entries `l`, from a well-formed state: `Close`
is called on the session of every key of `l` that is in the registry, exactly
the sessions called are recorded, each of them is closed afterwards, and the
registry only shrinks. -/
theorem closeAll_spec (l : List (Key × Nat)) (c : Client) (hwf : WF c) :
    WF (closeAll l c) ∧
    HeapSim c.heap (closeAll l c).heap ∧
    (∀ k q, Pairs.get (closeAll l c).connPairs k = some q → Pairs.get c.connPairs k = some q) ∧
    ∃ calls, (closeAll l c).closeCalls = c.closeCalls ++ calls ∧
      (∀ k p, k ∈ l.map Prod.fst → Pairs.get c.connPairs k = some p → p ∈ calls) ∧
      (∀ p, p ∈ calls → ∃ k, Pairs.get c.connPairs k = some p) ∧
      (∀ p, p ∈ calls → ∃ pc : PairedConn, (closeAll l c).heap[p]? = some pc ∧ pc.closed = true) := by
  induction l generalizing c with
  | nil =>
    refine ⟨hwf, HeapSim_refl _, fun _ _ h => h, [], by simp [closeAll], ?_, ?_, ?_⟩
    · intro k p hk
      simp at hk
    · intro p hp
      simp at hp
    · intro p hp
      simp at hp
  | cons e rest ih =>
    obtain ⟨k0, p00⟩ := e
    unfold closeAll
    cases hg : Pairs.get c.connPairs k0 with
    | none =>
      simp only
      obtain ⟨i1, i2, i3, calls, i4, i5, i6, i7⟩ := ih c hwf
      refine ⟨i1, i2, i3, calls, i4, ?_, i6, i7⟩
      intro k p hk hgk
      simp only [List.map_cons, List.mem_cons] at hk
      rcases hk with hk | hk
      · rw [hk, hg] at hgk
        exact absurd hgk (by simp)
      · exact i5 k p hk hgk
    | some p0 =>
      simp only
      obtain ⟨i1, i2, i3, calls, i4, i5, i6, i7⟩ := ih (PairedConn.Close c p0) (WF_Close c p0 hwf)
      obtain ⟨pc0, hh0, ho0⟩ := hwf.1 k0 p0 hg
      refine ⟨i1, HeapSim_trans _ _ _ (Close_sim c p0) i2,
        fun k q h => Close_pairs_sub c p0 k q (i3 k q h), p0 :: calls, ?_, ?_, ?_, ?_⟩
      · rw [i4]
        rcases Close_cases c p0 with h | ⟨pc, _, _, h⟩
        · rw [h]
          simp
        · rw [h]
          simp
      · intro k p hk hgk
        by_cases hkk : k = k0
        · rw [hkk, hg] at hgk
          cases hgk
          exact List.mem_cons_self _ _
        · simp only [List.map_cons, List.mem_cons] at hk
          rcases hk with hk | hk
          · exact absurd hk hkk
          · refine List.mem_cons_of_mem _ (i5 k p hk ?_)
            rcases Close_pairs c p0 with hc | ⟨pc, kx, hhx, hox, hc⟩
            · rw [hc]
              exact hgk
            · rw [hh0] at hhx
              cases hhx
              have hkx : kx = k0 := by
                rcases ho0 with ho0 | ho0
                · rw [ho0] at hox
                  exact absurd hox (by simp)
                · rw [ho0] at hox
                  exact (Option.some.inj hox).symm
              rw [hc, Pairs.get_delete, hkx]
              simpa [hkk] using hgk
      · intro p hp
        rcases List.mem_cons.mp hp with hp | hp
        · exact ⟨k0, by rw [hp]; exact hg⟩
        · obtain ⟨k, hk⟩ := i6 p hp
          exact ⟨k, Close_pairs_sub c p0 k p hk⟩
      · intro p hp
        rcases List.mem_cons.mp hp with hp | hp
        · obtain ⟨pcx, hx, _, _, hcl⟩ := Close_heap_at c p0 pc0 hh0
          obtain ⟨pc2, hq2, _, hc2⟩ := i2.2 p0 pcx hx
          exact ⟨pc2, by rw [hp]; exact hq2, hc2 hcl⟩
        · exact i7 p hp

/-- Every step keeps the registry well-formed. -/
theorem WF_step (d : Decls) (c : Client) (e : Event) (hwf : WF c) :
    WF (Client.step d c e) := by
  rcases step_cases d c e with hs | hs | hs | ⟨_, _, hs⟩ | ⟨order, _, _, hs⟩ | ⟨conn, _, _, hs⟩ |
    ⟨conn, K, p, pc, hget, hheap, hs⟩ | ⟨p, pc, pcx, hheap, ht, hx, htk, _, hs⟩
  · rw [hs]; exact hwf
  · rw [hs]; exact hwf
  · rw [hs]; exact hwf
  · rw [hs]; exact hwf
  · rw [hs]
    exact (closeAll_spec order c hwf).1
  · rw [hs]
    refine ⟨?_, ?_⟩
    · intro k q hg
      simp only [Pairs.get_store] at hg
      by_cases hk : k = d.tokenString ((c.token + 1) % d.tokenMod)
      · simp only [hk, if_true, Option.some.injEq] at hg
        subst hg
        exact ⟨_, List.getElem?_concat_length _ _, Or.inl rfl⟩
      · simp only [hk, if_false] at hg
        obtain ⟨pcq, hq, ho⟩ := hwf.1 k q hg
        refine ⟨pcq, ?_, ho⟩
        simp only
        rw [List.getElem?_append_left (heap_lt_of_get _ _ _ hq)]
        exact hq
    · intro k1 k2 q h1 h2
      simp only [Pairs.get_store] at h1 h2
      by_cases hk1 : k1 = d.tokenString ((c.token + 1) % d.tokenMod)
      · by_cases hk2 : k2 = d.tokenString ((c.token + 1) % d.tokenMod)
        · rw [hk1, hk2]
        · simp only [hk1, if_true, Option.some.injEq] at h1
          simp only [hk2, if_false] at h2
          obtain ⟨pcq, hq, _⟩ := hwf.1 k2 q h2
          have := heap_lt_of_get _ _ _ hq
          omega
      · by_cases hk2 : k2 = d.tokenString ((c.token + 1) % d.tokenMod)
        · simp only [hk2, if_true, Option.some.injEq] at h2
          simp only [hk1, if_false] at h1
          obtain ⟨pcq, hq, _⟩ := hwf.1 k1 q h1
          have := heap_lt_of_get _ _ _ hq
          omega
        · simp only [hk1, if_false] at h1
          simp only [hk2, if_false] at h2
          exact hwf.2 k1 k2 q h1 h2
  · rw [hs]
    refine ⟨?_, hwf.2⟩
    intro k q hg
    by_cases hq : p = q
    · subst hq
      have hk : k = K := hwf.2 k K p hg hget
      refine ⟨_, List.getElem?_set_self (heap_lt_of_get _ _ _ hheap), Or.inr ?_⟩
      rw [hk]
    · obtain ⟨pcq, hhq, ho⟩ := hwf.1 k q hg
      exact ⟨pcq, by simp only; rw [List.getElem?_set_ne hq]; exact hhq, ho⟩
  · rw [hs]
    exact WF_of_sim (PairedConn.Close c p) _ (WF_Close c p hwf)
      (HeapSim_set (PairedConn.Close c p).heap p pcx { pcx with tasks := pc.tasks - 1 } hx rfl
        (fun x => x))
      (fun _ _ h => h)

theorem WF_boot : WF boot :=
  ⟨fun k p h => by simp [boot, Client.Start, NewClient, Client.init, listenAndAccept, Pairs.get] at h,
   fun k1 k2 p h => by simp [boot, Client.Start, NewClient, Client.init, listenAndAccept, Pairs.get] at h⟩

theorem WF_exec (d : Decls) (evs : List Event) (c : Client) (hwf : WF c) :
    WF (Client.exec d c evs) := by
  induction evs generalizing c with
  | nil => exact hwf
  | cons e rest ih => exact ih (Client.step d c e) (WF_step d c e hwf)

theorem WF_of_Reachable (d : Decls) (c : Client) (h : Reachable d c) : WF c := by
  obtain ⟨evs, rfl⟩ := h
  exact WF_exec d evs boot WF_boot

/-! ## The wait group -/

/-- C7, what the code does: in every state that an instance created by
`NewClient` and started by `Start` reaches, the counter of `c.wg` is one more
than the running accept loops and relay tasks: the `Add(1)` of `Start` has no
`Done`. Once both accept loops have exited and every relay task has finished
the counter is 1, not 0, and the wait in `Close` does not complete. -/
theorem Close_wait_never_completes (d : Decls) (evs : List Event)
    (hacc : (Client.exec d boot evs).acceptLoops = 0)
    (htasks : relayTasks (Client.exec d boot evs) = 0) :
    (Client.exec d boot evs).wg = 1 ∧
    Client.closeReturns (Client.exec d boot evs) = false := by
  have h := exec_wg d evs boot (by decide)
  rw [hacc, htasks] at h
  simp only [Nat.cast_zero, zero_add] at h
  exact ⟨h, by simp [Client.closeReturns, h]⟩

/-- C7 at an instance that relayed one session and was then shut down: `run`
has returned, no accept loop and no relay task is left. -/
theorem Close_wait_never_completes_witness :
    (Client.exec sampleDecls boot
      [Event.pubConn 7, Event.intConn 9 [[48, 48, 48, 49]], Event.relayExit 0,
       Event.relayExit 0, Event.closeDone, Event.done [], Event.acceptExit,
       Event.acceptExit]).status = RunStatus.returned ∧
    (Client.exec sampleDecls boot
      [Event.pubConn 7, Event.intConn 9 [[48, 48, 48, 49]], Event.relayExit 0,
       Event.relayExit 0, Event.closeDone, Event.done [], Event.acceptExit,
       Event.acceptExit]).wg = 1 :=
  ⟨by decide,
   (Close_wait_never_completes sampleDecls
      [Event.pubConn 7, Event.intConn 9 [[48, 48, 48, 49]], Event.relayExit 0,
       Event.relayExit 0, Event.closeDone, Event.done [], Event.acceptExit,
       Event.acceptExit] (by decide) (by decide)).1⟩

/-! ## The claims about single steps of `run` -/

/-- C1, what the code does: for every running instance and every callback
connection whose key (the buffer after the read) is not in the registry, the
nil pointer that the lookup returns is dereferenced: `run` panics. The
connection is not closed; registry and sessions are as before. -/
theorem run_unknown_key_panics (d : Decls) (c : Client) (conn : Conn)
    (reads : List (List Nat)) (buf : Key)
    (hrun : c.status = RunStatus.running)
    (hread : connRead (d.tokenLen c.token) reads = some buf)
    (habs : Pairs.get c.connPairs buf = none) :
    (Client.step d c (Event.intConn conn reads)).status = RunStatus.panicked ∧
    (Client.step d c (Event.intConn conn reads)).closedConns = c.closedConns ∧
    (Client.step d c (Event.intConn conn reads)).connPairs = c.connPairs ∧
    (Client.step d c (Event.intConn conn reads)).heap = c.heap := by
  rw [step_intConn_absent d c conn reads buf hrun hread habs]
  exact ⟨rfl, rfl, rfl, rfl⟩

/-- C1 at one pending session (token 0001) and a callback connection that
presents 0005, a token that was never issued. -/
theorem run_unknown_key_panics_witness :
    (Client.step sampleDecls (Client.exec sampleDecls boot [Event.pubConn 7])
      (Event.intConn 9 [[48, 48, 48, 53]])).status = RunStatus.panicked ∧
    (Client.step sampleDecls (Client.exec sampleDecls boot [Event.pubConn 7])
      (Event.intConn 9 [[48, 48, 48, 53]])).closedConns = [] :=
  ⟨(run_unknown_key_panics sampleDecls (Client.exec sampleDecls boot [Event.pubConn 7]) 9
      [[48, 48, 48, 53]] [48, 48, 48, 53] (by decide) (by decide) (by decide)).1,
   (run_unknown_key_panics sampleDecls (Client.exec sampleDecls boot [Event.pubConn 7]) 9
      [[48, 48, 48, 53]] [48, 48, 48, 53] (by decide) (by decide) (by decide)).2.1⟩

/-- C2, what the code does: when the first receive returns only the first `k`
bytes of the `W`-byte key `K` (k < W), `run` looks up those `k` bytes
followed by `W - k` zero bytes. Unless the rest of `K` is all zero bytes this
is a key different from `K`, and when no session is stored under it `run`
panics and the session under `K` is not matched. -/
theorem run_short_read_key (d : Decls) (c : Client) (conn : Conn) (K : Key)
    (k : Nat) (rest : List (List Nat))
    (hrun : c.status = RunStatus.running)
    (hlen : K.length = d.tokenLen c.token)
    (hkW : k < K.length)
    (htail : K.drop k ≠ List.replicate (K.length - k) 0) :
    connRead (d.tokenLen c.token) (K.take k :: rest)
      = some (K.take k ++ List.replicate (K.length - k) 0) ∧
    K.take k ++ List.replicate (K.length - k) 0 ≠ K ∧
    (Pairs.get c.connPairs (K.take k ++ List.replicate (K.length - k) 0) = none →
      Client.step d c (Event.intConn conn (K.take k :: rest))
        = { c with status := RunStatus.panicked }) := by
  have hread : connRead (d.tokenLen c.token) (K.take k :: rest)
      = some (K.take k ++ List.replicate (K.length - k) 0) := by
    simp [connRead, ← hlen, List.take_take, List.length_take,
      Nat.min_eq_left (Nat.le_of_lt hkW), Nat.min_eq_right (Nat.le_of_lt hkW)]
  refine ⟨hread, ?_, ?_⟩
  · intro heq
    apply htail
    have h2 : K.take k ++ List.replicate (K.length - k) 0 = K.take k ++ K.drop k := by
      rw [List.take_append_drop]
      exact heq
    exact (List.append_cancel_left h2).symm
  · intro habs
    exact step_intConn_absent d c conn (K.take k :: rest) _ hrun hread habs

/-- C2 at one pending session under 0001 whose token arrives as 00 then 01. -/
theorem run_short_read_key_witness :
    Client.step sampleDecls (Client.exec sampleDecls boot [Event.pubConn 7])
        (Event.intConn 9 [[48, 48], [48, 49]])
      = { Client.exec sampleDecls boot [Event.pubConn 7] with
          status := RunStatus.panicked } :=
  (run_short_read_key sampleDecls (Client.exec sampleDecls boot [Event.pubConn 7]) 9
    [48, 48, 48, 49] 2 [[48, 49]] (by decide) (by decide) (by decide)
    (by decide)).2.2 (by decide)

/-- C3, what the code does: a callback connection that presents the key of a
session that is already matched and still tracked matches again: the far
connection of that session is replaced by the new connection, the callback is
set anew and `Copy` is called a second time on the session. -/
theorem run_rematches_active_session (d : Decls) (c : Client) (conn far : Conn)
    (reads : List (List Nat)) (K : Key) (p : Nat) (pc : PairedConn)
    (hrun : c.status = RunStatus.running)
    (hread : connRead (d.tokenLen c.token) reads = some K)
    (hget : Pairs.get c.connPairs K = some p)
    (hheap : c.heap[p]? = some pc)
    (hfar : pc.DEST = some far) (hcopied : 0 < pc.copies) (hne : conn ≠ far) :
    (Client.step d c (Event.intConn conn reads)).status = RunStatus.running ∧
    (∃ pc1, (Client.step d c (Event.intConn conn reads)).heap[p]? = some pc1 ∧
      pc1.DEST = some conn ∧ pc1.DEST ≠ pc.DEST ∧ pc1.copies = pc.copies + 1 ∧
      1 < pc1.copies) ∧
    (Client.step d c (Event.intConn conn reads)).wg = c.wg + d.copyTasks := by
  have hp : p < c.heap.length := by
    by_contra hlt
    rw [List.getElem?_eq_none (Nat.le_of_not_lt hlt)] at hheap
    exact absurd hheap (by simp)
  rw [step_intConn_match d c conn reads K p pc hrun hread hget hheap]
  refine ⟨hrun, ⟨PairedConn.mk pc.SRC (some conn) (some K) pc.closed
      (pc.tasks + d.copyTasks) (pc.copies + 1), ?_, rfl, ?_, rfl, ?_⟩, rfl⟩
  · simp [hp]
  · simp [hfar, hne]
  · simp only
    omega

/-- C3 at a session matched by connection 9 and presented again by 10. -/
theorem run_rematches_active_session_witness :
    ∃ pc1, (Client.step sampleDecls
        (Client.exec sampleDecls boot [Event.pubConn 7, Event.intConn 9 [[48, 48, 48, 49]]])
        (Event.intConn 10 [[48, 48, 48, 49]])).heap[0]? = some pc1 ∧
      pc1.DEST = some 10 ∧ pc1.DEST ≠ some 9 ∧ pc1.copies = 1 + 1 ∧ 1 < pc1.copies :=
  (run_rematches_active_session sampleDecls
    (Client.exec sampleDecls boot [Event.pubConn 7, Event.intConn 9 [[48, 48, 48, 49]]])
    10 9 [[48, 48, 48, 49]] [48, 48, 48, 49] 0
    { SRC := 7, DEST := some 9, OnClose := some [48, 48, 48, 49], closed := false,
      tasks := 2, copies := 1 }
    (by decide) (by decide) (by decide) (by decide) rfl (by decide) (by decide)).2.1

/-- C6, what the code does: after one public connection is accepted and the
instance is shut down, the pending session has been closed by the shutdown
branch and is still an entry of the registry. -/
theorem shutdown_leaves_closed_pending_session (d : Decls) (conn : Conn) :
    (Client.exec d boot [Event.pubConn conn, Event.closeDone,
      Event.done [(d.tokenString (1 % d.tokenMod), 0)]]).status = RunStatus.returned ∧
    Pairs.get (Client.exec d boot [Event.pubConn conn, Event.closeDone,
      Event.done [(d.tokenString (1 % d.tokenMod), 0)]]).connPairs
      (d.tokenString (1 % d.tokenMod)) = some 0 ∧
    (Client.exec d boot [Event.pubConn conn, Event.closeDone,
      Event.done [(d.tokenString (1 % d.tokenMod), 0)]]).heap
      = [{ SRC := conn, DEST := none, OnClose := none, closed := true,
           tasks := 0, copies := 0 }] ∧
    (Client.exec d boot [Event.pubConn conn, Event.closeDone,
      Event.done [(d.tokenString (1 % d.tokenMod), 0)]]).closedConns = [conn] := by
  simp [Client.exec, Client.step, Client.run, boot, Client.Start, NewClient, Client.init,
    listenAndAccept, closeAll, Pairs.store, Pairs.delete, Pairs.get, PairedConn.Close]

/-- C10: in every state of an Agent Instance in which `run` is running and
`done` is closed, the shutdown branch, in whatever order it visits the
registry, calls `Close` on every session of the registry, pending and active
alike (and on nothing else), every such session is closed afterwards, and
`run` has returned: public and callback connections that arrive later are not
handled. -/
theorem run_shutdown_closes_all (d : Decls) (c : Client) (order : List (Key × Nat))
    (hreach : Reachable d c)
    (hrun : c.status = RunStatus.running)
    (hdone : c.doneClosed = true)
    (horder : order.Perm c.connPairs) :
    (Client.step d c (Event.done order)).status = RunStatus.returned ∧
    (∃ calls, (Client.step d c (Event.done order)).closeCalls = c.closeCalls ++ calls ∧
      (∀ k p, Pairs.get c.connPairs k = some p → p ∈ calls) ∧
      (∀ p, p ∈ calls → ∃ k, Pairs.get c.connPairs k = some p) ∧
      (∀ p, p ∈ calls →
        ∃ pc : PairedConn, (Client.step d c (Event.done order)).heap[p]? = some pc ∧
          pc.closed = true)) ∧
    (∀ conn, Client.step d (Client.step d c (Event.done order)) (Event.pubConn conn)
      = Client.step d c (Event.done order)) ∧
    (∀ conn reads,
      Client.step d (Client.step d c (Event.done order)) (Event.intConn conn reads)
        = Client.step d c (Event.done order)) := by
  have hwf := WF_of_Reachable d c hreach
  have hs : Client.step d c (Event.done order)
      = { closeAll order c with status := RunStatus.returned } := by
    simp [Client.step, Client.run, hrun, hdone, horder]
  obtain ⟨_, _, _, calls, i4, i5, i6, i7⟩ := closeAll_spec order c hwf
  rw [hs]
  refine ⟨rfl, ⟨calls, i4, ?_, i6, i7⟩, ?_, ?_⟩
  · intro k p hg
    refine i5 k p ?_ hg
    have hm := horder.mem_iff.mpr (Pairs.mem_of_get c.connPairs k p hg)
    exact List.mem_map.mpr ⟨(k, p), hm, rfl⟩
  · intro conn
    simp [Client.step]
  · intro conn reads
    simp [Client.step]

/-- C10 at one active and one pending session, the pending one visited first. -/
theorem run_shutdown_closes_all_witness :
    (Client.exec sampleDecls boot
      [Event.pubConn 7, Event.pubConn 8, Event.intConn 9 [[48, 48, 48, 50]],
       Event.closeDone]).status = RunStatus.running ∧
    (Client.step sampleDecls
      (Client.exec sampleDecls boot
        [Event.pubConn 7, Event.pubConn 8, Event.intConn 9 [[48, 48, 48, 50]],
         Event.closeDone])
      (Event.done [([48, 48, 48, 49], 0), ([48, 48, 48, 50], 1)])).status
      = RunStatus.returned :=
  ⟨by decide,
   (run_shutdown_closes_all sampleDecls
    (Client.exec sampleDecls boot
      [Event.pubConn 7, Event.pubConn 8, Event.intConn 9 [[48, 48, 48, 50]],
       Event.closeDone])
    [([48, 48, 48, 49], 0), ([48, 48, 48, 50], 1)]
    ⟨[Event.pubConn 7, Event.pubConn 8, Event.intConn 9 [[48, 48, 48, 50]],
      Event.closeDone], rfl⟩ (by decide) (by decide) (by decide)).1⟩

/-! ## The agent process loop -/

/-- C8, as stated, fails: an event that carries both a public and an internal
address is handled as callback-required (the internal address is dialed and
nothing is printed) although its `publicAddress` is non-empty. -/
theorem newClientCmd_handle_ignores_PublicAddress :
    (Response.mk "0001" "10.0.0.1:7001" "1.2.3.4:80").PublicAddress ≠ "" ∧
    treatsAsCallback "127.0.0.1" "22"
      (Response.mk "0001" "10.0.0.1:7001" "1.2.3.4:80") (NetOutcome.mk true true true) ∧
    ¬ treatsAsInformational "127.0.0.1" "22"
      (Response.mk "0001" "10.0.0.1:7001" "1.2.3.4:80") (NetOutcome.mk true true true) := by
  refine ⟨by decide, ?_, ?_⟩
  · simp [treatsAsCallback, newClientCmd.handle]
  · simp [treatsAsInformational, newClientCmd.handle]

/-- C8, amended: the loop body decides by the presence of `InternalAddress`.
An event is handled as callback-required (dial the internal address first)
exactly when `InternalAddress` is non-empty and as informational (print the
public address, dial nothing) exactly when it is empty; on events that carry
exactly one of the two addresses this is the decision by `PublicAddress`. -/
theorem newClientCmd_handle_decides_by_InternalAddress
    (host port : String) (resp : Response) (net : NetOutcome) :
    (treatsAsCallback host port resp net ↔ resp.InternalAddress ≠ "") ∧
    (treatsAsInformational host port resp net ↔ resp.InternalAddress = "") ∧
    ((resp.PublicAddress = "" ↔ resp.InternalAddress ≠ "") →
      ((treatsAsInformational host port resp net ↔ resp.PublicAddress ≠ "") ∧
       (treatsAsCallback host port resp net ↔ resp.PublicAddress = ""))) := by
  have hcb : treatsAsCallback host port resp net ↔ resp.InternalAddress ≠ "" := by
    unfold treatsAsCallback newClientCmd.handle
    by_cases h : resp.InternalAddress = ""
    · simp [h]
    · cases net with
      | mk a b c => cases a <;> cases b <;> cases c <;> simp [h]
  have hinf : treatsAsInformational host port resp net ↔ resp.InternalAddress = "" := by
    unfold treatsAsInformational newClientCmd.handle
    by_cases h : resp.InternalAddress = ""
    · simp [h]
    · cases net with
      | mk a b c => cases a <;> cases b <;> cases c <;> simp [h]
  refine ⟨hcb, hinf, ?_⟩
  intro hx
  constructor
  · rw [hinf]
    constructor
    · intro h hp
      exact (hx.mp hp) h
    · intro h
      by_contra hi
      exact h (hx.mpr hi)
  · rw [hcb]
    exact hx.symm

/-- The amended C8 at an event with only an internal address. -/
theorem newClientCmd_handle_decides_by_InternalAddress_witness :
    ((Response.mk "0001" "10.0.0.1:7001" "").PublicAddress = ""
      ↔ (Response.mk "0001" "10.0.0.1:7001" "").InternalAddress ≠ "") ∧
    treatsAsCallback "127.0.0.1" "22"
      (Response.mk "0001" "10.0.0.1:7001" "") (NetOutcome.mk true true true) :=
  ⟨by decide,
   ((newClientCmd_handle_decides_by_InternalAddress "127.0.0.1" "22"
      (Response.mk "0001" "10.0.0.1:7001" "") (NetOutcome.mk true true true)).2.2
        (by decide)).2.mpr (by decide)⟩

/-- C9, as stated, fails: when dialing the internal address fails for a
callback-required event, the loop panics and the event that follows on the
stream is never received (nothing is printed for it). -/
theorem newClientCmd_loop_dial_failure_panics :
    newClientCmd.loop "127.0.0.1" "22"
      [(Except.ok (Response.mk "0001" "10.0.0.1:7001" ""), NetOutcome.mk false true true),
       (Except.ok (Response.mk "" "" "1.2.3.4:80"), NetOutcome.mk true true true)]
      = ([Action.dial "10.0.0.1:7001"], LoopStatus.panicked) := by
  simp [newClientCmd.loop, newClientCmd.handle]

/-- C9, amended: for a callback-required event the loop goes on to receive the
next event exactly when dialing the internal address, writing the token and
dialing the backend all succeed (it then starts the local relay); when one of
them fails the loop panics at that call and handles no further event. -/
theorem newClientCmd_loop_callback_event (host port : String) (resp : Response)
    (net : NetOutcome) (rest : List (Except RecvError Response × NetOutcome))
    (h : resp.InternalAddress ≠ "") :
    (net.allOk = true →
      newClientCmd.loop host port ((Except.ok resp, net) :: rest)
        = ([Action.dial resp.InternalAddress, Action.write resp.Token,
            Action.dial (host ++ ":" ++ port), Action.copy]
             ++ (newClientCmd.loop host port rest).1,
           (newClientCmd.loop host port rest).2)) ∧
    (net.allOk = false →
      (newClientCmd.loop host port ((Except.ok resp, net) :: rest)).2 = LoopStatus.panicked ∧
      (newClientCmd.loop host port ((Except.ok resp, net) :: rest)).1
        = (newClientCmd.handle host port resp net).1 ∧
      Action.copy ∉ (newClientCmd.loop host port ((Except.ok resp, net) :: rest)).1) := by
  cases net with
  | mk a b c =>
    cases a <;> cases b <;> cases c <;>
      simp [newClientCmd.loop, newClientCmd.handle, NetOutcome.allOk, h]

/-- The amended C9 at a failing write followed by one more event. -/
theorem newClientCmd_loop_callback_event_witness :
    (Response.mk "0001" "10.0.0.1:7001" "").InternalAddress ≠ "" ∧
    (newClientCmd.loop "127.0.0.1" "22"
      [(Except.ok (Response.mk "0001" "10.0.0.1:7001" ""), NetOutcome.mk true false true),
       (Except.ok (Response.mk "" "" "1.2.3.4:80"), NetOutcome.mk true true true)]).2
      = LoopStatus.panicked :=
  ⟨by decide,
   ((newClientCmd_loop_callback_event "127.0.0.1" "22" (Response.mk "0001" "10.0.0.1:7001" "")
      (NetOutcome.mk true false true)
      [(Except.ok (Response.mk "" "" "1.2.3.4:80"), NetOutcome.mk true true true)]
      (by decide)).2 rfl).1⟩

end L4Proxy

